import Mathlib

/-!
Shallow embedding of the dotnet-core buildpack's runtime-resolution engine:
`src/dotnetcore/project/project.go` (project location, main-path decision,
start-command synthesis) and `src/dotnetcore/dotnetframework/dotnetframework.go`
(framework requirement detection and installation orchestration).

Paths are modelled as Lean `String`s, exactly as Go passes them around.
Go standard-library string/path helpers (`strings.HasSuffix`,
`strings.Contains`, `strings.Split`, `strings.Trim`, `filepath.Join`,
`filepath.Clean`, `filepath.Base`) are embedded as executable functions over
`List Char`, so every definition evaluates by `decide`/`rfl`.

External collaborators that are not part of this repository
(`libbuildpack.FileExists`, `libbuildpack.FindMatchingVersion`, the manifest,
the JSON/XML/INI parsers, the delegated installer) are modelled as explicit
parameters or parse-result fields of the state structures, per the spec's
component boundaries.
-/

namespace BP

/-- Models Go `strings.HasSuffix s suf`. -/
def strEnds (s suf : String) : Bool :=
  suf.toList.isSuffixOf s.toList

/-- Models Go `strings.Contains s pat` (substring containment). -/
def strContains (s pat : String) : Bool :=
  decide (pat.toList <:+: s.toList)

/-- Models Go `strings.Split s (String.singleton sep)` on the character list:
splitting on a single-character separator. `charSplit sep []` is `[[]]`,
matching Go's `strings.Split "" sep = [""]`. -/
def charSplit (sep : Char) : List Char → List (List Char)
  | [] => [[]]
  | c :: cs =>
    match charSplit sep cs with
    | [] => [[c]]
    | h :: t => if c == sep then [] :: h :: t else (c :: h) :: t

/-- Split a string on a separator character, as Go `strings.Split` with a
one-character separator. -/
def splitSep (sep : Char) (s : String) : List String :=
  (charSplit sep s.toList).map (fun cs => String.mk cs)

/-- Models Go `strings.Join` restricted to our uses: join with a separator. -/
def joinSep (sep : String) : List String → String
  | [] => ""
  | [x] => x
  | x :: y :: xs => x ++ sep ++ joinSep sep (y :: xs)

/-- Models Go `strings.Trim s "."`: drops leading and trailing '.' characters. -/
def trimDots (s : String) : String :=
  String.mk (((s.toList.dropWhile (· == '.')).reverse.dropWhile (· == '.')).reverse)

/-- Whether the path begins with a '/' (a rooted path, in Go `filepath` terms). -/
def strRooted (s : String) : Bool :=
  match s.toList with
  | '/' :: _ => true
  | _ => false

/-- One step of Go `filepath.Clean`'s segment processing: skip empty and "."
segments, resolve ".." against the accumulated (reversed) segment list. -/
def cleanFold (rooted : Bool) (acc : List String) (seg : String) : List String :=
  if seg == "" || seg == "." then acc
  else if seg == ".." then
    match acc with
    | [] => if rooted then [] else [".."]
    | a :: rest => if a == ".." then ".." :: a :: rest else rest
  else seg :: acc

/-- Models Go `filepath.Clean` (unix separators). -/
def goClean (s : String) : String :=
  if s == "" then "." else
  let rooted := strRooted s
  let segs := splitSep '/' s
  let acc := segs.foldl (cleanFold rooted) []
  let body := joinSep "/" acc.reverse
  if rooted then "/" ++ body
  else if body == "" then "." else body

/-- Models Go `filepath.Join elems...`: empty elements are dropped, the rest
are joined with '/' and the result is cleaned; all-empty input yields "". -/
def joinList (elems : List String) : String :=
  match elems.filter (fun e => !(e == "")) with
  | [] => ""
  | ne => goClean (joinSep "/" ne)

/-- Models Go `filepath.Base`. -/
def goBase (s : String) : String :=
  if s == "" then "." else
  let r := s.toList.reverse.dropWhile (· == '/')
  if r.isEmpty then "/" else String.mk ((r.takeWhile (· != '/')).reverse)

/-- The three recognized build-descriptor extensions, tested with
`strings.HasSuffix` exactly as in `ProjFilePaths`. -/
def isProjSuffix (p : String) : Bool :=
  strEnds p ".csproj" || strEnds p ".vbproj" || strEnds p ".fsproj"

/-- A lowercase ASCII letter, the character class `[a-z]` of the Go regex. -/
def lowerAlpha (c : Char) : Bool :=
  'a' ≤ c && c ≤ 'z'

/-- Models a match of the Go regex `\.([a-z]+proj)$`. A match exists iff the
part of the string after its last '.' is a nonempty run of lowercase letters
ending in "proj" of length at least 5 (the matched text `[a-z]+proj` cannot
contain a '.', so the match can only start at the last '.'). -/
def projReMatch (s : String) : Bool :=
  let r := s.toList.reverse
  let seg := r.takeWhile (· != '.')
  decide (seg.length < r.length) && decide (5 ≤ seg.length) &&
    seg.all lowerAlpha && decide (seg.take 4 = ['j', 'o', 'r', 'p'])

/-- Models Go `projRe.ReplaceAllString s ""`: the regex is anchored at the end
of the string, so a match (when present, necessarily unique) is removed. -/
def projReStrip (s : String) : String :=
  if projReMatch s then
    let r := s.toList.reverse
    let seg := r.takeWhile (· != '.')
    String.mk ((r.drop (seg.length + 1)).reverse)
  else s

/-- Models a match of the Go regex `\.(runtimeconfig\.json)$`: the literal
suffix ".runtimeconfig.json". -/
def runtimeConfigReMatch (s : String) : Bool :=
  strEnds s ".runtimeconfig.json"

/-- Models Go `runtimeConfigRe.ReplaceAllString s ""` on a matching string:
removes the 19-character suffix ".runtimeconfig.json". -/
def stripRuntimeConfigExt (s : String) : String :=
  String.mk ((s.toList.reverse.drop 19).reverse)

/-- Structured rendering of the `error` values produced (or propagated
verbatim) by the embedded functions. Each constructor records the data that
the corresponding `fmt.Errorf`/collaborator error message carries. -/
inductive GoError where
  /-- "Multiple .runtimeconfig.json files present" -/
  | multipleRuntimeConfig : GoError
  /-- "Multiple paths: %v contain a project file, but no .deployment file was
  used" — carries the candidate descriptor paths interpolated into the
  message. -/
  | ambiguousProject (paths : List String) : GoError
  /-- error returned by `ini.Load` on an unparseable .deployment file -/
  | iniLoadFailed (msg : String) : GoError
  /-- error returned by go-ini `GetSection` when the section is absent -/
  | missingSection (name : String) : GoError
  /-- error returned by go-ini `GetKey` when the key is absent -/
  | missingKey (name : String) : GoError
  /-- error returned by `os.Open` in `getAssemblyName` -/
  | openFailed (path : String) : GoError
  /-- error returned by `xml.Unmarshal` on a malformed descriptor -/
  | xmlUnmarshalFailed (msg : String) : GoError
  /-- error returned by `libbuildpack.NewJSON().Load` -/
  | jsonLoadFailed (msg : String) : GoError
  /-- error returned by `libbuildpack.FindMatchingVersion` (no match) -/
  | noMatchingVersion (constraint : String) : GoError
  /-- opaque error propagated verbatim from the delegated installer -/
  | installFailed (msg : String) : GoError
deriving DecidableEq, Repr

/-- Decidable equality for `Except` results, so concrete runs of the
embedded functions can be checked by `decide`. -/
instance exceptDecEq {e a : Type} [DecidableEq e] [DecidableEq a] :
    DecidableEq (Except e a) := fun x y =>
  match x, y with
  | .ok u, .ok v =>
    if h : u = v then isTrue (congrArg Except.ok h)
    else isFalse (fun hh => h (Except.ok.inj hh))
  | .ok _, .error _ => isFalse (fun hh => Except.noConfusion hh)
  | .error _, .ok _ => isFalse (fun hh => Except.noConfusion hh)
  | .error u, .error v =>
    if h : u = v then isTrue (congrArg Except.error h)
    else isFalse (fun hh => h (Except.error.inj hh))

/-- A parsed INI file as used by go-ini here: named sections, each a list of
key/value pairs, in file order. -/
def Ini : Type := List (String × List (String × String))

/-- go-ini `File.GetSection`: first section with the given (case-sensitive)
name, if any. -/
def iniGetSection (ini : Ini) (name : String) : Option (List (String × String)) :=
  (ini.find? (fun sec => sec.1 == name)).map (fun sec => sec.2)

/-- go-ini `Section.GetKey`: first key with the given name, if any. -/
def iniGetKey (sec : List (String × String)) (name : String) : Option String :=
  (sec.find? (fun kv => kv.1 == name)).map (fun kv => kv.2)

mutual
/-- A directory tree, the input of `filepath.Walk`: children are listed in
the (lexical) order in which `Walk` visits them. Mutual with `DirForest` so
that all recursion over it is structural. -/
inductive DirTree where
  | file (name : String) : DirTree
  | dir (name : String) (children : DirForest) : DirTree
/-- A list of sibling directory-tree entries. -/
inductive DirForest where
  | nil : DirForest
  | cons (t : DirTree) (ts : DirForest) : DirForest
end

/-- Build a forest from a list of trees. -/
def DirForest.ofList : List DirTree → DirForest
  | [] => .nil
  | t :: ts => .cons t (DirForest.ofList ts)

end BP

namespace Project

open BP

/-- The state of a `project.Project` together with the parts of the
filesystem its methods inspect. -/
structure FS where
  /-- `p.buildDir`, assumed to be a cleaned path as handed in by the harness -/
  buildDir : String
  /-- `p.depDir` -/
  depDir : String
  /-- `p.depsIdx` -/
  depsIdx : String
  /-- names of the entries directly at the build root, in sorted order, as
  enumerated by `filepath.Glob` -/
  rootEntries : List String
  /-- the directory tree below the build root, as visited by `filepath.Walk` -/
  tree : DirForest
  /-- the `.deployment` hint file: `none` if absent, otherwise the result of
  `ini.Load` on it -/
  deployment : Option (Except String Ini)
  /-- result of opening and `xml.Unmarshal`-ing the file at a path into the
  minimal `PropertyGroup.AssemblyName` schema: `none` models an `os.Open`
  failure, `some (.error m)` an `xml.Unmarshal` failure, `some (.ok a)` a
  successful parse with assembly name `a` (possibly empty). -/
  xmlParse : String → Option (Except String String)
  /-- existence and permission bits of a file at a path, for the
  `libbuildpack.FileExists` tests of `publishedStartCommand`: `none` means
  the file does not exist, `some m` that it exists with mode `m`. -/
  files : String → Option Nat

/-- The paths matched by `filepath.Glob(filepath.Join(p.buildDir,
"*.runtimeconfig.json"))`: the root entries whose name ends in
".runtimeconfig.json" (glob `*` matches any, possibly empty, run of
non-separator characters), each prefixed with the build root. -/
def globRuntimeConfigs (fs : FS) : List String :=
  (fs.rootEntries.filter (fun n => strEnds n ".runtimeconfig.json")).map
    (fun n => fs.buildDir ++ "/" ++ n)

/-- `project.go` `RuntimeConfigFile`: one glob match is returned, more than
one is an error, zero yields the empty string. -/
def RuntimeConfigFile (fs : FS) : Except GoError String :=
  let configFiles := globRuntimeConfigs fs
  if configFiles.length = 1 then .ok (configFiles.headD "")
  else if 1 < configFiles.length then .error .multipleRuntimeConfig
  else .ok ""

/-- `project.go` `IsPublished`: a runtime-config file exists. -/
def IsPublished (fs : FS) : Except GoError Bool :=
  match RuntimeConfigFile fs with
  | .error e => .error e
  | .ok path => .ok (!(path == ""))

/-- The body of the `filepath.Walk` in `ProjFilePaths`. Each visited path is
`px ++ "/" ++ name`. A path containing "/.cloudfoundry/" makes the walk
function return `filepath.SkipDir`: on a directory this prunes its subtree;
on a plain file it skips the remaining entries of the containing directory
(all of which share the offending prefix, as `"/.cloudfoundry/"` contains
'/' only at its ends and entry names contain none). Any other visited path
(directories included, exactly as in the Go code) is collected when its name
ends in one of the three descriptor extensions. -/
def collectProjWalk (px : String) : DirForest → List String
  | .nil => []
  | .cons (.file n) ts =>
    let p := px ++ "/" ++ n
    if strContains p "/.cloudfoundry/" then []
    else (if isProjSuffix p then [p] else []) ++ collectProjWalk px ts
  | .cons (.dir n cs) ts =>
    let p := px ++ "/" ++ n
    if strContains p "/.cloudfoundry/" then collectProjWalk px ts
    else (if isProjSuffix p then [p] else []) ++ collectProjWalk p cs ++ collectProjWalk px ts

/-- `project.go` `ProjFilePaths`: walk the build tree, visiting the root
itself first (a `SkipDir` there ends the walk with no results), collecting
descriptor paths with the ".cloudfoundry" exclusion. The walk of an
on-disk tree cannot fail, so the model is total. -/
def ProjFilePaths (fs : FS) : List String :=
  if strContains fs.buildDir "/.cloudfoundry/" then []
  else (if isProjSuffix fs.buildDir then [fs.buildDir] else []) ++
    collectProjWalk fs.buildDir fs.tree

/-- `project.go` `MainPath`: runtime config wins; else a single descriptor;
else the `.deployment` hint or the ambiguity error; else empty. -/
def MainPath (fs : FS) : Except GoError String :=
  match RuntimeConfigFile fs with
  | .error e => .error e
  | .ok runtimeConfigFile =>
    if !(runtimeConfigFile == "") then .ok runtimeConfigFile
    else
      let paths := ProjFilePaths fs
      if paths.length = 1 then .ok (paths.headD "")
      else if 1 < paths.length then
        match fs.deployment with
        | none => .error (.ambiguousProject paths)
        | some (.error msg) => .error (.iniLoadFailed msg)
        | some (.ok ini) =>
          match iniGetSection ini "config" with
          | none => .error (.missingSection "config")
          | some sec =>
            match iniGetKey sec "project" with
            | none => .error (.missingKey "project")
            | some projectVal => .ok (joinList [fs.buildDir, trimDots projectVal])
      else .ok ""

/-- `project.go` `getAssemblyName`: open and parse the descriptor, returning
`PropertyGroup.AssemblyName`; open and parse failures are returned as
errors. -/
def getAssemblyName (fs : FS) (projectPath : String) : Except GoError String :=
  match fs.xmlParse projectPath with
  | none => .error (.openFailed projectPath)
  | some (.error msg) => .error (.xmlUnmarshalFailed msg)
  | some (.ok assemblyName) => .ok assemblyName

/-- The local `publishedPath` of `publishedStartCommand`: the search root
determined by the publish state. -/
def publishedPathOf (fs : FS) (published : Bool) : String :=
  if published then fs.buildDir else joinList [fs.depDir, "dotnet_publish"]

/-- The local `runtimePath` of `publishedStartCommand`: the
externally-visible root token determined by the publish state. -/
def runtimePathOf (fs : FS) (published : Bool) : String :=
  if published then "${HOME}" else joinList ["${DEPS_DIR}", fs.depsIdx, "dotnet_publish"]

/-- `project.go` `publishedStartCommand`: pick the search root and the
externally-visible root token from the publish state, then probe for the
bare base name (chmod 0755 on hit) and for base name + ".dll". The returned
pair carries the result string together with the list of `os.Chmod` calls
performed, as (path, mode) with mode `0o755`. -/
def publishedStartCommand (fs : FS) (projectPath : String) :
    Except GoError (String × List (String × Nat)) :=
  match IsPublished fs with
  | .error e => .error e
  | .ok published =>
    if (fs.files (joinList [publishedPathOf fs published, projectPath])).isSome then
      .ok (joinList [runtimePathOf fs published, projectPath],
           [(joinList [publishedPathOf fs published, projectPath], 0o755)])
    else if (fs.files (joinList [publishedPathOf fs published, projectPath ++ ".dll"])).isSome then
      .ok (joinList [runtimePathOf fs published, projectPath] ++ ".dll", [])
    else .ok ("", [])

/-- The spec's notion (section 4.5, step 5) of the first probe of the start
command search: "a file named exactly the base name with executable
permission". Modelled from the spec's words for comparison with the source's
bare `libbuildpack.FileExists` probe: the file exists and some execute bit
(owner, group or other) is set in its mode. -/
def specExecutableAt (fs : FS) (path : String) : Bool :=
  match fs.files path with
  | none => false
  | some mode => !(mode &&& 0o111 == 0)

/-- `project.go` `StartCommand`: derive the base name from the main path
(runtime-config name, assembly-name override, or descriptor file name) and
delegate to `publishedStartCommand`. -/
def StartCommand (fs : FS) : Except GoError (String × List (String × Nat)) :=
  match MainPath fs with
  | .error e => .error e
  | .ok projectPath =>
    if projectPath == "" then .ok ("", [])
    else
      let step : Except GoError String :=
        if runtimeConfigReMatch projectPath then
          .ok (goBase (stripRuntimeConfigExt projectPath))
        else if projReMatch projectPath then
          match getAssemblyName fs projectPath with
          | .error e => .error e
          | .ok assemblyName =>
            if !(assemblyName == "") then .ok (projReStrip assemblyName)
            else .ok (goBase (projReStrip projectPath))
        else .ok projectPath
      match step with
      | .error e => .error e
      | .ok pp => publishedStartCommand fs pp

end Project

namespace DotnetFramework

open BP

/-- One entry of `ioutil.ReadDir`'s result: a name and whether it is a
directory. -/
structure DirEntry where
  name : String
  isDir : Bool
deriving DecidableEq, Repr

/-- The minimal schema `requiredVersions` reads from the runtime-config
JSON: `runtimeOptions.framework.{name,version}` and
`runtimeOptions.applyPatches` (absent modelled as `none`, Go `nil`). -/
structure RuntimeOpts where
  name : String
  version : String
  applyPatches : Option Bool
deriving DecidableEq, Repr

/-- The state of a `DotnetFramework` value together with its collaborators:
the manifest catalog, the version resolver (`libbuildpack.FindMatchingVersion`,
abstract), the filesystem facets it probes, and the delegated installer. -/
structure Env where
  /-- `d.depDir` -/
  depDir : String
  /-- `d.buildDir` -/
  buildDir : String
  /-- names of the entries directly at the build root, in sorted order, for
  the runtime-config glob -/
  rootEntries : List String
  /-- result of `libbuildpack.NewJSON().Load` on the (unique) runtime-config
  file, when one exists -/
  configParse : Except String RuntimeOpts
  /-- `d.manifest.AllDependencyVersions "dotnet-framework"` -/
  catalog : List String
  /-- `libbuildpack.FindMatchingVersion constraint versions`, an external
  collaborator kept abstract; its error is propagated verbatim -/
  resolve : String → List String → Except GoError String
  /-- `ioutil.ReadDir` at a directory path: `none` when the path does not
  exist (so `libbuildpack.FileExists` is false there), otherwise the entries
  sorted by name -/
  dirListing : String → Option (List DirEntry)
  /-- `libbuildpack.FileExists` for the per-version install directory probes -/
  fileExists : String → Bool
  /-- `d.installer.InstallDependency (Dependency "dotnet-framework" v) dest`:
  the delegated installer's outcome for a version, kept abstract -/
  installer : String → Except GoError Unit

/-- The paths matched by the `filepath.Glob` in `dotnetframework.go`
`runtimeConfigFile`, modelled exactly as `Project.globRuntimeConfigs`. -/
def globRuntimeConfigs (d : Env) : List String :=
  (d.rootEntries.filter (fun n => strEnds n ".runtimeconfig.json")).map
    (fun n => d.buildDir ++ "/" ++ n)

/-- `dotnetframework.go` `runtimeConfigFile`: same glob and case analysis as
`project.go`'s `RuntimeConfigFile`, over `d.buildDir`. -/
def runtimeConfigFile (d : Env) : Except GoError String :=
  let configFiles := globRuntimeConfigs d
  if configFiles.length = 1 then .ok (configFiles.headD "")
  else if 1 < configFiles.length then .error .multipleRuntimeConfig
  else .ok ""

/-- The patch-wildcarding step of `requiredVersions`:
`v := strings.Split(version, "."); v[2] = "x"; strings.Join(v, ".")`.
The write `v[2] = "x"` is unguarded in Go and panics when the split has
fewer than three segments; `none` models that panic. -/
def wildcardPatch (version : String) : Option String :=
  let v := splitSep '.' version
  if 2 < v.length then some (joinSep "." (v.set 2 "x")) else none

/-- `filepath.Join(d.depDir, ".nuget", "packages", "microsoft.netcore.app")`. -/
def restoredVersionsDir (d : Env) : String :=
  joinList [d.depDir, ".nuget", "packages", "microsoft.netcore.app"]

/-- `dotnetframework.go` `requiredVersions`. The outer `Option` is `none`
exactly when the Go code panics (version with fewer than three dot-separated
segments reaching the `v[2] = "x"` write); otherwise the inner `Except` is
the function's ordinary (versions, error) result. -/
def requiredVersions (d : Env) : Option (Except GoError (List String)) :=
  match runtimeConfigFile d with
  | .error e => some (.error e)
  | .ok runtimeFile =>
    if !(runtimeFile == "") then
      match d.configParse with
      | .error msg => some (.error (.jsonLoadFailed msg))
      | .ok obj =>
        if !(obj.version == "") then
          if obj.applyPatches = none ∨ obj.applyPatches = some true then
            match wildcardPatch obj.version with
            | none => none
            | some constraint =>
              match d.resolve constraint d.catalog with
              | .error e => some (.error e)
              | .ok version => some (.ok [version])
          else some (.ok [obj.version])
        else some (.ok [])
    else
      match d.dirListing (restoredVersionsDir d) with
      | none => some (.ok [])
      | some files => some (.ok (files.map (fun f => f.name)))

/-- The spec's notion (section 4.3) of the restored-package requirements:
"enumerating subdirectories of a fixed restored-package cache location".
Modelled from the spec's words for comparison with the source's `ReadDir`
loop: only the entries that are directories. -/
def specSubdirNames (entries : List DirEntry) : List String :=
  (entries.filter (fun f => f.isDir)).map (fun f => f.name)

/-- `dotnetframework.go` `getFrameworkDir`. -/
def getFrameworkDir (d : Env) : String :=
  joinList [d.depDir, "dotnet", "shared", "Microsoft.NETCore.App"]

/-- The per-version install directory probed by `isInstalled`. -/
def versionDir (d : Env) (version : String) : String :=
  joinList [getFrameworkDir d, version]

/-- The destination root passed to the delegated installer. -/
def installDest (d : Env) : String :=
  joinList [d.depDir, "dotnet"]

/-- The loop body of `Install`: for each version, skip when
`isInstalled` (the version directory exists), otherwise delegate to the
installer, stopping at its first failure, which is propagated verbatim.
The second component records the delegated calls as (version, destination)
pairs, in order. -/
def installLoop (d : Env) : List String → Except GoError Unit × List (String × String)
  | [] => (.ok (), [])
  | v :: rest =>
    if d.fileExists (versionDir d v) then installLoop d rest
    else
      match d.installer v with
      | .error e => (.error e, [(v, installDest d)])
      | .ok _ =>
        let r := installLoop d rest
        (r.1, (v, installDest d) :: r.2)

/-- `dotnetframework.go` `Install`: compute the required versions (outer
`none` again modelling the panic, and a `requiredVersions` error returned
as-is with no install attempted), then run the install loop. -/
def Install (d : Env) : Option (Except GoError Unit × List (String × String)) :=
  match requiredVersions d with
  | none => none
  | some (.error e) => some (.error e, [])
  | some (.ok versions) =>
    if versions.length = 0 then some (.ok (), [])
    else some (installLoop d versions)

end DotnetFramework

/-! ## Concrete inputs used by the witnesses and counterexamples -/

/-- Concrete build roots exercising C5: two runtime configs give the
multiplicity error, one gives that path. -/
def fsW5 : Project.FS := {
  buildDir := "/b"
  depDir := "/d/9"
  depsIdx := "9"
  rootEntries := ["a.runtimeconfig.json", "b.runtimeconfig.json"]
  tree := .nil
  deployment := none
  xmlParse := fun _ => none
  files := fun _ => none
}

/-- Concrete dotnetframework environment exercising C5. -/
def dW5 : DotnetFramework.Env := {
  depDir := "/d/9"
  buildDir := "/b"
  rootEntries := ["app.runtimeconfig.json"]
  configParse := .ok { name := "", version := "", applyPatches := none }
  catalog := []
  resolve := fun c _ => .error (.noMatchingVersion c)
  dirListing := fun _ => none
  fileExists := fun _ => false
  installer := fun _ => .ok ()
}

/-- Build root with a runtime config and two descriptors, for the C2
witness: the runtime config wins. -/
def fsW2rc : Project.FS := {
  buildDir := "/b"
  depDir := "/d/9"
  depsIdx := "9"
  rootEntries := ["a.csproj", "b.csproj", "fred.runtimeconfig.json"]
  tree := .ofList [.file "a.csproj", .file "b.csproj", .file "fred.runtimeconfig.json"]
  deployment := none
  xmlParse := fun _ => none
  files := fun _ => none
}

/-- Empty build root for the C2 witness. -/
def fsW2none : Project.FS := {
  buildDir := "/b"
  depDir := "/d/9"
  depsIdx := "9"
  rootEntries := []
  tree := .nil
  deployment := none
  xmlParse := fun _ => none
  files := fun _ => none
}

/-- Build root with exactly one descriptor for the C2 witness. -/
def fsW2one : Project.FS := {
  buildDir := "/b"
  depDir := "/d/9"
  depsIdx := "9"
  rootEntries := ["subdir"]
  tree := .ofList [.dir "subdir" (.ofList [.file "first.csproj"])]
  deployment := none
  xmlParse := fun _ => none
  files := fun _ => none
}

/-- The spec's example tree: descriptors first.csproj, dir/second.csproj,
a/b/first.vbproj, b/c/first.fsproj plus a .deployment hint naming
"./a/b/first.vbproj". -/
def fsW1 : Project.FS := {
  buildDir := "/b"
  depDir := "/d/9"
  depsIdx := "9"
  rootEntries := [".cloudfoundry", ".deployment", "a", "b", "c", "dir", "first.csproj", "other.txt"]
  tree := .ofList [
    .dir ".cloudfoundry" (.ofList [.file "other.csproj"]),
    .file ".deployment",
    .dir "a" (.ofList [.dir "b" (.ofList [.file "first.vbproj"])]),
    .dir "b" (.ofList [.dir "c" (.ofList [.file "first.fsproj"])]),
    .dir "c" (.ofList [.dir "d" (.ofList [.file "other.txt"])]),
    .dir "dir" (.ofList [.file "other.txt", .file "second.csproj"]),
    .file "first.csproj",
    .file "other.txt"]
  deployment := some (.ok [("config", [("project", "./a/b/first.vbproj")])])
  xmlParse := fun _ => none
  files := fun _ => none
}

/-- The same tree with the hint file removed. -/
def fsW1nohint : Project.FS :=
  { fsW1 with deployment := none }

/-- Environment with a runtime config requiring version 2.1.3, for the C4
witness: the resolver sees the wildcarded constraint 2.1.x. -/
def dW4 : DotnetFramework.Env := {
  depDir := "/d/9"
  buildDir := "/b"
  rootEntries := ["app.runtimeconfig.json"]
  configParse := .ok { name := "Microsoft.NETCore.App", version := "2.1.3", applyPatches := none }
  catalog := ["2.1.4", "2.1.5"]
  resolve := fun c catalog => if c == "2.1.x" then .ok (catalog.headD "") else .error (.noMatchingVersion c)
  dirListing := fun _ => none
  fileExists := fun _ => false
  installer := fun _ => .ok ()
}

/-- The same environment with applyPatches explicitly false. -/
def dW4lit : DotnetFramework.Env :=
  { dW4 with configParse := .ok { name := "Microsoft.NETCore.App", version := "2.1.3", applyPatches := some false } }

/-- Environment whose runtime config pins the two-segment version "2.1",
for the C10 witness. -/
def dW10 : DotnetFramework.Env :=
  { dW4 with configParse := .ok { name := "Microsoft.NETCore.App", version := "2.1", applyPatches := none } }

/-- Environment with no runtime config whose restored-package cache holds a
plain file entry "stray.txt", for the C8 counterexample and witness. -/
def dC8 : DotnetFramework.Env := {
  depDir := "/d/9"
  buildDir := "/b"
  rootEntries := []
  configParse := .ok { name := "", version := "", applyPatches := none }
  catalog := []
  resolve := fun c _ => .error (.noMatchingVersion c)
  dirListing := fun q =>
    if q == "/d/9/.nuget/packages/microsoft.netcore.app" then
      some [{ name := "stray.txt", isDir := false }] else none
  fileExists := fun _ => false
  installer := fun _ => .ok ()
}

/-- Environment with no runtime config and no restored-package cache. -/
def dW2miss : DotnetFramework.Env :=
  { dC8 with dirListing := fun _ => none }

/-- Environment requiring version 2.1.0 from the restored-package cache,
nothing installed yet, delegated installer succeeding. -/
def dW7a : DotnetFramework.Env := {
  depDir := "/d/9"
  buildDir := "/b"
  rootEntries := []
  configParse := .ok { name := "", version := "", applyPatches := none }
  catalog := []
  resolve := fun c _ => .error (.noMatchingVersion c)
  dirListing := fun q =>
    if q == "/d/9/.nuget/packages/microsoft.netcore.app" then
      some [{ name := "2.1.0", isDir := true }] else none
  fileExists := fun _ => false
  installer := fun _ => .ok ()
}

/-- The same environment after the first install populated
/d/9/dotnet/shared/Microsoft.NETCore.App/2.1.0. -/
def dW7b : DotnetFramework.Env :=
  { dW7a with fileExists := fun q => q == "/d/9/dotnet/shared/Microsoft.NETCore.App/2.1.0" }

/-- Published build root with a non-executable file "fred" (mode 0644) and a
file "fred.dll" besides the runtime config, for the C3 counterexample. -/
def fsC3 : Project.FS := {
  buildDir := "/b"
  depDir := "/d/9"
  depsIdx := "9"
  rootEntries := ["fred.runtimeconfig.json"]
  tree := .ofList [.file "fred.runtimeconfig.json"]
  deployment := none
  xmlParse := fun _ => none
  files := fun q =>
    if q == "/b/fred" then some 0o644
    else if q == "/b/fred.dll" then some 0o644 else none
}

/-- Build tree containing a .cloudfoundry subtree with a descriptor inside
it, for the C6 witness. -/
def fsW6 : Project.FS := {
  buildDir := "/b"
  depDir := "/d/9"
  depsIdx := "9"
  rootEntries := []
  tree := .ofList [
    .dir ".cloudfoundry" (.ofList [.file "evil.csproj", .dir "deep" (.ofList [.file "x.vbproj"])]),
    .file "first.csproj"]
  deployment := none
  xmlParse := fun _ => none
  files := fun _ => none
}

/-- Build root whose single descriptor has malformed XML metadata, for the
C9 witness. -/
def fsW9 : Project.FS := {
  buildDir := "/b"
  depDir := "/d/9"
  depsIdx := "9"
  rootEntries := ["fred.csproj"]
  tree := .ofList [.file "fred.csproj"]
  deployment := none
  xmlParse := fun q =>
    if q == "/b/fred.csproj" then some (.error "XML syntax error") else none
  files := fun _ => none
}

/-! ## Helper lemmas -/

namespace BP

/-- A path of the form `b ++ "/" ++ n` is never the empty string. -/
lemma concatSlash_ne_empty (b n : String) : (b ++ "/" ++ n == "") = false := by
  rw [beq_eq_false_iff_ne]
  intro h
  have h0 : (b ++ "/" ++ n).data = [] := by rw [h]
  rw [String.data_append, String.data_append] at h0
  have hm : ('/' : Char) ∈ b.data ++ ("/" : String).data ++ n.data := by
    simp [show ("/" : String).data = ['/'] from rfl]
  rw [h0] at hm
  simp at hm

end BP

namespace Project

/-- Every glob match is a root-prefixed entry name, hence nonempty. -/
lemma globRuntimeConfigs_singleton_ne_empty (fs : FS) (p : String)
    (h : globRuntimeConfigs fs = [p]) : (p == "") = false := by
  have hp : p ∈ globRuntimeConfigs fs := h ▸ List.mem_singleton.mpr rfl
  obtain ⟨n, -, rfl⟩ := List.mem_map.mp hp
  exact BP.concatSlash_ne_empty _ _

/-- A singleton glob result is returned by `RuntimeConfigFile`. -/
lemma runtimeConfigFile_of_singleton (fs : FS) (p : String)
    (h : globRuntimeConfigs fs = [p]) : RuntimeConfigFile fs = .ok p := by
  simp [RuntimeConfigFile, h]

/-- An empty glob result makes `RuntimeConfigFile` return the empty string. -/
lemma runtimeConfigFile_of_nil (fs : FS)
    (h : globRuntimeConfigs fs = []) : RuntimeConfigFile fs = .ok "" := by
  simp [RuntimeConfigFile, h]

end Project

namespace DotnetFramework

/-- Every glob match is a root-prefixed entry name, hence nonempty. -/
lemma envGlob_singleton_ne_empty (d : Env) (p : String)
    (h : globRuntimeConfigs d = [p]) : (p == "") = false := by
  have hp : p ∈ globRuntimeConfigs d := h ▸ List.mem_singleton.mpr rfl
  obtain ⟨n, -, rfl⟩ := List.mem_map.mp hp
  exact BP.concatSlash_ne_empty _ _

/-- A singleton glob result is returned by `runtimeConfigFile`. -/
lemma envRuntimeConfigFile_of_singleton (d : Env) (p : String)
    (h : globRuntimeConfigs d = [p]) : runtimeConfigFile d = .ok p := by
  simp [runtimeConfigFile, h]

/-- An empty glob result makes `runtimeConfigFile` return the empty string. -/
lemma envRuntimeConfigFile_of_nil (d : Env)
    (h : globRuntimeConfigs d = []) : runtimeConfigFile d = .ok "" := by
  simp [runtimeConfigFile, h]

end DotnetFramework

namespace DotnetFramework

/-- Every delegated call recorded by the install loop is for a version whose
install directory did not exist. -/
lemma installLoop_calls_not_installed (d : Env) :
    ∀ (vs : List String) (v dest : String),
      (v, dest) ∈ (installLoop d vs).2 → d.fileExists (versionDir d v) = false := by
  intro vs
  induction vs with
  | nil => intro v dest h; simp [installLoop] at h
  | cons w rest ih =>
    intro v dest h
    cases hw : d.fileExists (versionDir d w) with
    | false =>
      rcases hi : d.installer w with e | u
      · simp [installLoop, hw, hi] at h
        rcases h with ⟨rfl, rfl⟩
        exact hw
      · simp [installLoop, hw, hi] at h
        rcases h with ⟨rfl, rfl⟩ | h
        · exact hw
        · exact ih v dest h
    | true =>
      exact ih v dest (by simpa [installLoop, hw] using h)

end DotnetFramework

namespace BP

/-- A string ending in a nonempty suffix has that suffix's last character. -/
lemma strEnds_getLast (p s : String) (h : strEnds p s = true) (hs : s.toList ≠ []) :
    p.toList.getLast? = s.toList.getLast? := by
  rw [strEnds, List.isSuffixOf_iff_suffix] at h
  obtain ⟨t, ht⟩ := h
  rw [← ht, List.getLast?_append]
  cases hx : s.toList.getLast? with
  | none => exact absurd (List.getLast?_eq_none_iff.mp hx) hs
  | some a => rfl

/-- Two nonempty suffixes with different last characters cannot both end the
same string. -/
lemma not_both_ends (p s1 s2 : String) (h1 : strEnds p s1 = true)
    (hne : s1.toList.getLast? ≠ s2.toList.getLast?)
    (hs1 : s1.toList ≠ []) (hs2 : s2.toList ≠ []) :
    strEnds p s2 = false := by
  cases h2 : strEnds p s2 with
  | false => rfl
  | true =>
    have e1 := strEnds_getLast p s1 h1 hs1
    have e2 := strEnds_getLast p s2 h2 hs2
    exact absurd (e1.symm.trans e2) hne

/-- A descriptor path (ending in 'j') never ends in ".runtimeconfig.json"
(ending in 'n'). -/
lemma isProj_not_runtimeConfig (p : String) (h : isProjSuffix p = true) :
    runtimeConfigReMatch p = false := by
  rw [isProjSuffix, Bool.or_eq_true, Bool.or_eq_true] at h
  rw [runtimeConfigReMatch]
  rcases h with (h | h) | h
  · exact not_both_ends p ".csproj" ".runtimeconfig.json" h (by decide) (by decide) (by decide)
  · exact not_both_ends p ".vbproj" ".runtimeconfig.json" h (by decide) (by decide) (by decide)
  · exact not_both_ends p ".fsproj" ".runtimeconfig.json" h (by decide) (by decide) (by decide)

/-- A descriptor path (ending in 'j') never ends in "/.cloudfoundry"
(ending in 'y'), so the excluded segment cannot be a returned path's last
segment. -/
lemma isProj_not_ends_cloudfoundry (p : String) (h : isProjSuffix p = true) :
    strEnds p "/.cloudfoundry" = false := by
  rw [isProjSuffix, Bool.or_eq_true, Bool.or_eq_true] at h
  rcases h with (h | h) | h
  · exact not_both_ends p ".csproj" "/.cloudfoundry" h (by decide) (by decide) (by decide)
  · exact not_both_ends p ".vbproj" "/.cloudfoundry" h (by decide) (by decide) (by decide)
  · exact not_both_ends p ".fsproj" "/.cloudfoundry" h (by decide) (by decide) (by decide)

/-- A descriptor path is nonempty. -/
lemma isProj_ne_empty (p : String) (h : isProjSuffix p = true) : (p == "") = false := by
  rw [beq_eq_false_iff_ne]
  intro heq
  subst heq
  exact absurd h (by decide)

/-- A lowercase letter is not a dot. -/
lemma lowerAlpha_ne_dot {c : Char} (h : lowerAlpha c = true) : (c != '.') = true := by
  rw [lowerAlpha, Bool.and_eq_true, decide_eq_true_eq, decide_eq_true_eq] at h
  rw [bne_iff_ne]
  intro hc
  subst hc
  exact absurd h.1 (by decide)

/-- Any string whose character list ends in '.', two lowercase letters and
"proj" matches the Go regex. All three descriptor extensions have this
shape. -/
lemma projReMatch_of_suffix7 (p : String) (a b : Char) (t : List Char)
    (ht : t ++ ['.', a, b, 'p', 'r', 'o', 'j'] = p.toList)
    (ha : lowerAlpha a = true) (hb : lowerAlpha b = true) :
    projReMatch p = true := by
  simp only [projReMatch]
  rw [← ht, List.reverse_append]
  rw [show (['.', a, b, 'p', 'r', 'o', 'j'] : List Char).reverse =
        ['j', 'o', 'r', 'p', b, a, '.'] from by simp]
  simp only [List.cons_append, List.nil_append]
  simp only [Bool.and_eq_true, decide_eq_true_eq]
  rw [List.takeWhile_cons_of_pos (by decide), List.takeWhile_cons_of_pos (by decide),
      List.takeWhile_cons_of_pos (by decide), List.takeWhile_cons_of_pos (by decide),
      @List.takeWhile_cons_of_pos Char (fun x => x != '.') b (a :: '.' :: t.reverse)
        (lowerAlpha_ne_dot hb),
      @List.takeWhile_cons_of_pos Char (fun x => x != '.') a ('.' :: t.reverse)
        (lowerAlpha_ne_dot ha),
      List.takeWhile_cons_of_neg (by decide)]
  refine ⟨⟨⟨?_, ?_⟩, ?_⟩, ?_⟩
  · simp only [List.length_cons, List.length_append, List.length_nil]
    omega
  · simp
  · simp only [List.all_cons, List.all_nil, Bool.and_eq_true]
    exact ⟨by decide, by decide, by decide, by decide, hb, ha, trivial⟩
  · rfl

/-- Every descriptor path matches the Go regex for build descriptors. -/
lemma isProj_projReMatch (p : String) (h : isProjSuffix p = true) :
    projReMatch p = true := by
  rw [isProjSuffix, Bool.or_eq_true, Bool.or_eq_true] at h
  rcases h with (h | h) | h
  · rw [strEnds, List.isSuffixOf_iff_suffix] at h
    obtain ⟨t, ht⟩ := h
    rw [show (".csproj".toList) = ['.', 'c', 's', 'p', 'r', 'o', 'j'] from rfl] at ht
    exact projReMatch_of_suffix7 p 'c' 's' t ht (by decide) (by decide)
  · rw [strEnds, List.isSuffixOf_iff_suffix] at h
    obtain ⟨t, ht⟩ := h
    rw [show (".vbproj".toList) = ['.', 'v', 'b', 'p', 'r', 'o', 'j'] from rfl] at ht
    exact projReMatch_of_suffix7 p 'v' 'b' t ht (by decide) (by decide)
  · rw [strEnds, List.isSuffixOf_iff_suffix] at h
    obtain ⟨t, ht⟩ := h
    rw [show (".fsproj".toList) = ['.', 'f', 's', 'p', 'r', 'o', 'j'] from rfl] at ht
    exact projReMatch_of_suffix7 p 'f' 's' t ht (by decide) (by decide)

end BP

namespace Project

/-- Every path collected by the walk body ends in a descriptor extension and
passed the ".cloudfoundry" exclusion check on its own full path. -/
lemma collectProjWalk_mem :
    ∀ (px : String) (ts : BP.DirForest) (p : String),
      p ∈ collectProjWalk px ts →
      BP.isProjSuffix p = true ∧ BP.strContains p "/.cloudfoundry/" = false := by
  intro px ts
  induction px, ts using collectProjWalk.induct <;> intro p hp
  case case1 => simp [collectProjWalk] at hp
  case case2 => simp_all [collectProjWalk]
  case case4 => simp_all [collectProjWalk]
  case case3 =>
    rename_i hskip ih
    simp [collectProjWalk, hskip] at hp
    rcases hp with ⟨hs, rfl⟩ | hmem
    · exact ⟨hs, Bool.eq_false_iff.mpr hskip⟩
    · exact ih p hmem
  case case5 =>
    rename_i hskip ih2 ih1
    simp [collectProjWalk, hskip] at hp
    rcases hp with ⟨hs, rfl⟩ | hmem | hmem
    · exact ⟨hs, Bool.eq_false_iff.mpr hskip⟩
    · exact ih2 p hmem
    · exact ih1 p hmem

end Project

/-! ## Claim theorems -/

/-- C5: `RuntimeConfigFile` (project.go) and `runtimeConfigFile`
(dotnetframework.go) glob non-recursively at the build root for the
"*.runtimeconfig.json" pattern and return the empty string with no error on
zero matches, the unique matching path on exactly one match, and the
"Multiple .runtimeconfig.json files present" error on more than one match —
never a silent pick among several. -/
theorem runtimeConfig_glob_cases (fs : Project.FS) (d : DotnetFramework.Env) :
    (Project.globRuntimeConfigs fs = [] → Project.RuntimeConfigFile fs = .ok "")
  ∧ (∀ p, Project.globRuntimeConfigs fs = [p] → Project.RuntimeConfigFile fs = .ok p)
  ∧ (1 < (Project.globRuntimeConfigs fs).length →
      Project.RuntimeConfigFile fs = .error .multipleRuntimeConfig)
  ∧ (DotnetFramework.globRuntimeConfigs d = [] →
      DotnetFramework.runtimeConfigFile d = .ok "")
  ∧ (∀ p, DotnetFramework.globRuntimeConfigs d = [p] →
      DotnetFramework.runtimeConfigFile d = .ok p)
  ∧ (1 < (DotnetFramework.globRuntimeConfigs d).length →
      DotnetFramework.runtimeConfigFile d = .error .multipleRuntimeConfig) := by
  refine ⟨fun h => Project.runtimeConfigFile_of_nil fs h,
          fun p h => Project.runtimeConfigFile_of_singleton fs p h,
          fun h => ?_, fun h => ?_, fun p h => ?_, fun h => ?_⟩
  · have hne : (Project.globRuntimeConfigs fs).length ≠ 1 := by omega
    simp [Project.RuntimeConfigFile, hne, h]
  · simp [DotnetFramework.runtimeConfigFile, h]
  · simp [DotnetFramework.runtimeConfigFile, h]
  · have hne : (DotnetFramework.globRuntimeConfigs d).length ≠ 1 := by omega
    simp [DotnetFramework.runtimeConfigFile, hne, h]

/-- Witness for C5 at concrete inputs. -/
theorem runtimeConfig_glob_cases_witness :
    Project.RuntimeConfigFile fsW5 = .error .multipleRuntimeConfig
  ∧ DotnetFramework.runtimeConfigFile dW5 = .ok "/b/app.runtimeconfig.json" :=
  ⟨(runtimeConfig_glob_cases fsW5 dW5).2.2.1 (by decide),
   (runtimeConfig_glob_cases fsW5 dW5).2.2.2.2.1 _ (by rfl)⟩

/-- C2: `MainPath` priority — a (unique) runtime-config file at the root is
returned as the main path regardless of the build descriptors below the
root; with no runtime config, zero descriptors yield the empty string with
no error and exactly one descriptor yields that descriptor's path. -/
theorem mainPath_priority (fs : Project.FS) :
    (∀ p, Project.globRuntimeConfigs fs = [p] → Project.MainPath fs = .ok p)
  ∧ (Project.globRuntimeConfigs fs = [] → Project.ProjFilePaths fs = [] →
      Project.MainPath fs = .ok "")
  ∧ (∀ q, Project.globRuntimeConfigs fs = [] → Project.ProjFilePaths fs = [q] →
      Project.MainPath fs = .ok q) := by
  refine ⟨?_, ?_, ?_⟩
  · intro p h
    simp [Project.MainPath, Project.runtimeConfigFile_of_singleton fs p h,
      Project.globRuntimeConfigs_singleton_ne_empty fs p h]
  · intro h hp
    simp [Project.MainPath, Project.runtimeConfigFile_of_nil fs h, hp]
  · intro q h hq
    simp [Project.MainPath, Project.runtimeConfigFile_of_nil fs h, hq]

/-- Witness for C2 at concrete inputs. -/
theorem mainPath_priority_witness :
    Project.MainPath fsW2rc = .ok "/b/fred.runtimeconfig.json"
  ∧ Project.MainPath fsW2none = .ok ""
  ∧ Project.MainPath fsW2one = .ok "/b/subdir/first.csproj" :=
  ⟨(mainPath_priority fsW2rc).1 _ (by rfl),
   (mainPath_priority fsW2none).2.1 (by rfl) (by rfl),
   (mainPath_priority fsW2one).2.2 _ (by rfl) (by rfl)⟩

/-- C1: with no runtime config at the root and more than one build
descriptor found, `MainPath` consults the `.deployment` hint: when the hint
file exists, parses, and carries a `[config]` section with a `project` key,
the declared relative path is trimmed of leading (and trailing) '.'
characters and joined to the build root, returned with no error; when the
hint file is absent, `MainPath` fails with the ambiguity error that carries
every candidate descriptor path. -/
theorem mainPath_multiple_descriptors (fs : Project.FS)
    (hrc : Project.globRuntimeConfigs fs = [])
    (hmany : 1 < (Project.ProjFilePaths fs).length) :
    (∀ ini sec projectVal,
        fs.deployment = some (.ok ini) →
        BP.iniGetSection ini "config" = some sec →
        BP.iniGetKey sec "project" = some projectVal →
        Project.MainPath fs = .ok (BP.joinList [fs.buildDir, BP.trimDots projectVal]))
  ∧ (fs.deployment = none →
        Project.MainPath fs = .error (.ambiguousProject (Project.ProjFilePaths fs))) := by
  have hlen : ¬ (Project.ProjFilePaths fs).length = 1 := by omega
  constructor
  · intro ini sec projectVal hdep hsec hkey
    simp [Project.MainPath, Project.runtimeConfigFile_of_nil fs hrc, hlen, hmany,
      hdep, hsec, hkey]
  · intro hdep
    simp [Project.MainPath, Project.runtimeConfigFile_of_nil fs hrc, hlen, hmany, hdep]

/-- Witness for C1: the spec's example, hint present and hint removed. -/
theorem mainPath_multiple_descriptors_witness :
    Project.MainPath fsW1 = .ok "/b/a/b/first.vbproj"
  ∧ Project.MainPath fsW1nohint = .error (.ambiguousProject
      ["/b/a/b/first.vbproj", "/b/b/c/first.fsproj", "/b/dir/second.csproj",
       "/b/first.csproj"]) :=
  ⟨(mainPath_multiple_descriptors fsW1 (by rfl) (by decide)).1
      [("config", [("project", "./a/b/first.vbproj")])]
      [("project", "./a/b/first.vbproj")] "./a/b/first.vbproj" rfl rfl rfl,
   (mainPath_multiple_descriptors fsW1nohint (by rfl) (by decide)).2 rfl⟩

/-- C4: with exactly one runtime-config file whose JSON parses, a non-empty
framework version is resolved through the catalog with its patch segment
wildcarded when applyPatches is absent or true (the resolver's value or
error returned as a one-element list or propagated verbatim); with
applyPatches explicitly false the literal version is returned untouched by
any resolver or catalog; an empty framework version yields an empty list
and no error. -/
theorem requiredVersions_runtime_config (d : DotnetFramework.Env) (p : String)
    (obj : DotnetFramework.RuntimeOpts)
    (hglob : DotnetFramework.globRuntimeConfigs d = [p])
    (hparse : d.configParse = .ok obj) :
    (obj.version = "" → DotnetFramework.requiredVersions d = some (.ok []))
  ∧ (obj.applyPatches = some false → obj.version ≠ "" →
      DotnetFramework.requiredVersions d = some (.ok [obj.version]))
  ∧ (∀ c v, (obj.applyPatches = none ∨ obj.applyPatches = some true) → obj.version ≠ "" →
      DotnetFramework.wildcardPatch obj.version = some c →
      d.resolve c d.catalog = .ok v →
      DotnetFramework.requiredVersions d = some (.ok [v]))
  ∧ (∀ c e, (obj.applyPatches = none ∨ obj.applyPatches = some true) → obj.version ≠ "" →
      DotnetFramework.wildcardPatch obj.version = some c →
      d.resolve c d.catalog = .error e →
      DotnetFramework.requiredVersions d = some (.error e)) := by
  have hne := DotnetFramework.envGlob_singleton_ne_empty d p hglob
  have hrc := DotnetFramework.envRuntimeConfigFile_of_singleton d p hglob
  refine ⟨?_, ?_, ?_, ?_⟩
  · intro hv
    simp [DotnetFramework.requiredVersions, hrc, hne, hparse, hv]
  · intro hap hv
    simp [DotnetFramework.requiredVersions, hrc, hne, hparse, hv, hap]
  · intro c v hap hv hc hres
    rcases hap with hap | hap <;>
      simp [DotnetFramework.requiredVersions, hrc, hne, hparse, hv, hap, hc, hres]
  · intro c e hap hv hc hres
    rcases hap with hap | hap <;>
      simp [DotnetFramework.requiredVersions, hrc, hne, hparse, hv, hap, hc, hres]

/-- Witness for C4: patch wildcarding resolves 2.1.3 through the catalog,
and the literal version passes through when applyPatches is false. -/
theorem requiredVersions_runtime_config_witness :
    DotnetFramework.requiredVersions dW4 = some (.ok ["2.1.4"])
  ∧ DotnetFramework.requiredVersions dW4lit = some (.ok ["2.1.3"]) :=
  ⟨(requiredVersions_runtime_config dW4 "/b/app.runtimeconfig.json" _ rfl rfl).2.2.1
      "2.1.x" "2.1.4" (Or.inl rfl) (by decide) rfl rfl,
   (requiredVersions_runtime_config dW4lit "/b/app.runtimeconfig.json" _ rfl rfl).2.1
      rfl (by decide)⟩

/-- C10: under a parsed runtime config with non-empty version and patches
applied, `requiredVersions` falls outside its domain (the Go code panics at
the unguarded `v[2] = "x"` write, modelled as the outer `none`) exactly when
the version string has fewer than three dot-separated segments; it is
defined (list or error value) whenever the version has at least three. -/
theorem requiredVersions_patch_segment_domain (d : DotnetFramework.Env) (p : String)
    (obj : DotnetFramework.RuntimeOpts)
    (hglob : DotnetFramework.globRuntimeConfigs d = [p])
    (hparse : d.configParse = .ok obj)
    (hv : obj.version ≠ "")
    (hap : obj.applyPatches = none ∨ obj.applyPatches = some true) :
    DotnetFramework.requiredVersions d = none ↔
      (BP.splitSep '.' obj.version).length < 3 := by
  have hne := DotnetFramework.envGlob_singleton_ne_empty d p hglob
  have hrc := DotnetFramework.envRuntimeConfigFile_of_singleton d p hglob
  by_cases hlen : 2 < (BP.splitSep '.' obj.version).length
  · have hwc : DotnetFramework.wildcardPatch obj.version =
        some (BP.joinSep "." ((BP.splitSep '.' obj.version).set 2 "x")) := by
      simp [DotnetFramework.wildcardPatch, hlen]
    rcases hap with hap | hap <;>
      rcases hres : d.resolve (BP.joinSep "." ((BP.splitSep '.' obj.version).set 2 "x")) d.catalog
        with e | v <;>
      simp [DotnetFramework.requiredVersions, hrc, hne, hparse, hv, hap, hwc, hres] <;>
      omega
  · have hwc : DotnetFramework.wildcardPatch obj.version = none := by
      simp [DotnetFramework.wildcardPatch, hlen]
    rcases hap with hap | hap <;>
      simp [DotnetFramework.requiredVersions, hrc, hne, hparse, hv, hap, hwc] <;>
      omega

/-- Witness for C10: version "2.1" (two segments) drives the code into the
panic, version "2.1.3" (three segments) stays inside the domain. -/
theorem requiredVersions_patch_segment_domain_witness :
    DotnetFramework.requiredVersions dW10 = none
  ∧ DotnetFramework.requiredVersions dW4 ≠ none :=
  ⟨(requiredVersions_patch_segment_domain dW10 "/b/app.runtimeconfig.json" _ rfl rfl
      (by decide) (Or.inl rfl)).mpr (by decide),
   fun h => by
    have := (requiredVersions_patch_segment_domain dW4 "/b/app.runtimeconfig.json" _ rfl rfl
      (by decide) (Or.inl rfl)).mp h
    simp [BP.splitSep, BP.charSplit] at this⟩

/-- C8 (amended): with no runtime config, `requiredVersions` returns the
names of all entries of the restored-package cache directory
depDir/.nuget/packages/microsoft.netcore.app (files and subdirectories
alike, each name verbatim with no resolution), and an empty list with no
error when that directory does not exist. -/
theorem requiredVersions_restored_entries (d : DotnetFramework.Env)
    (hglob : DotnetFramework.globRuntimeConfigs d = []) :
    (d.dirListing (DotnetFramework.restoredVersionsDir d) = none →
      DotnetFramework.requiredVersions d = some (.ok []))
  ∧ (∀ entries, d.dirListing (DotnetFramework.restoredVersionsDir d) = some entries →
      DotnetFramework.requiredVersions d = some (.ok (entries.map (fun f => f.name)))) := by
  have hrc := DotnetFramework.envRuntimeConfigFile_of_nil d hglob
  exact ⟨fun h => by simp [DotnetFramework.requiredVersions, hrc, h],
         fun entries h => by simp [DotnetFramework.requiredVersions, hrc, h]⟩

/-- Counterexample for C8 as stated: the cache directory contains a plain
file, the code (ReadDir loop over all entries) returns its name as a
"version", while the subdirectory names of the cache are empty — the claim
that exactly the subdirectory names are returned fails here. -/
theorem requiredVersions_restored_counterexample :
    DotnetFramework.requiredVersions dC8 = some (.ok ["stray.txt"])
  ∧ DotnetFramework.specSubdirNames [{ name := "stray.txt", isDir := false }] = []
  ∧ (["stray.txt"] : List String) ≠ [] :=
  ⟨rfl, rfl, by decide⟩

/-- Witness for the amended C8 at concrete inputs. -/
theorem requiredVersions_restored_entries_witness :
    DotnetFramework.requiredVersions dC8 = some (.ok ["stray.txt"])
  ∧ DotnetFramework.requiredVersions dW2miss = some (.ok []) :=
  ⟨(requiredVersions_restored_entries dC8 rfl).2
      [{ name := "stray.txt", isDir := false }] rfl,
   (requiredVersions_restored_entries dW2miss rfl).1 rfl⟩

/-- C7: install is idempotent per version — a version whose directory
already exists under depDir/dotnet/shared/Microsoft.NETCore.App is never
delegated to the installer; a delegated failure is propagated verbatim
after exactly one attempt with no retry; and two runs of `Install` with the
same single requirement make at most one delegated call in total, provided
the first run's success materializes the version directory for the second
run (the delegated installer's documented on-disk effect). -/
theorem install_idempotent (d d2 : DotnetFramework.Env) :
    (∀ vs v dest r calls, DotnetFramework.requiredVersions d = some (.ok vs) →
        DotnetFramework.Install d = some (r, calls) →
        d.fileExists (DotnetFramework.versionDir d v) = true → (v, dest) ∉ calls)
  ∧ (∀ v e, DotnetFramework.requiredVersions d = some (.ok [v]) →
        d.fileExists (DotnetFramework.versionDir d v) = false →
        d.installer v = .error e →
        DotnetFramework.Install d = some (.error e, [(v, DotnetFramework.installDest d)]))
  ∧ (∀ v r1 c1 r2 c2, DotnetFramework.requiredVersions d = some (.ok [v]) →
        DotnetFramework.requiredVersions d2 = some (.ok [v]) →
        DotnetFramework.Install d = some (r1, c1) →
        DotnetFramework.Install d2 = some (r2, c2) →
        r1 = .ok () →
        (r1 = .ok () → d2.fileExists (DotnetFramework.versionDir d2 v) = true) →
        c1.length + c2.length ≤ 1) := by
  refine ⟨?_, ?_, ?_⟩
  · intro vs v dest r calls hreq hinst hex hmem
    simp only [DotnetFramework.Install, hreq] at hinst
    by_cases h0 : vs.length = 0
    · rw [if_pos h0] at hinst
      obtain ⟨-, rfl⟩ : (Except.ok () : Except BP.GoError Unit) = r ∧ [] = calls := by
        have := Option.some.inj hinst
        exact ⟨congrArg Prod.fst this, congrArg Prod.snd this⟩
      simp at hmem
    · rw [if_neg h0] at hinst
      have hc : calls = (DotnetFramework.installLoop d vs).2 :=
        (congrArg Prod.snd (Option.some.inj hinst)).symm
      rw [hc] at hmem
      have := DotnetFramework.installLoop_calls_not_installed d vs v dest hmem
      rw [hex] at this
      exact Bool.true_eq_false.mp this
  · intro v e hreq hex hi
    simp [DotnetFramework.Install, hreq, DotnetFramework.installLoop, hex, hi]
  · intro v r1 c1 r2 c2 hreq1 hreq2 hinst1 hinst2 hok heff
    have h2 : d2.fileExists (DotnetFramework.versionDir d2 v) = true := heff hok
    simp only [DotnetFramework.Install, hreq2] at hinst2
    rw [if_neg (by simp)] at hinst2
    simp [DotnetFramework.installLoop, h2] at hinst2
    obtain ⟨-, hc2⟩ := hinst2
    simp only [DotnetFramework.Install, hreq1] at hinst1
    rw [if_neg (by simp)] at hinst1
    cases hex1 : d.fileExists (DotnetFramework.versionDir d v) with
    | true =>
      simp [DotnetFramework.installLoop, hex1] at hinst1
      obtain ⟨-, hc1⟩ := hinst1
      simp [hc1, hc2]
    | false =>
      rcases hi : d.installer v with e | u
      · simp [DotnetFramework.installLoop, hex1, hi] at hinst1
        obtain ⟨h1a, -⟩ := hinst1
        rw [← h1a] at hok
        simp at hok
      · simp [DotnetFramework.installLoop, hex1, hi] at hinst1
        obtain ⟨-, hc1⟩ := hinst1
        simp [← hc1, hc2]

/-- Witness for C7: the populated second environment gets no delegated call,
and the two runs together delegate exactly once. -/
theorem install_idempotent_witness :
    (("2.1.0", "/d/9/dotnet") ∉ ([] : List (String × String)))
  ∧ [("2.1.0", "/d/9/dotnet")].length + ([] : List (String × String)).length ≤ 1 :=
  ⟨(install_idempotent dW7b dW7b).1 ["2.1.0"] "2.1.0" "/d/9/dotnet" (.ok ()) [] rfl rfl rfl,
   (install_idempotent dW7a dW7b).2.2 "2.1.0" (.ok ()) [("2.1.0", "/d/9/dotnet")] (.ok ()) []
     rfl rfl rfl rfl rfl (fun _ => rfl)⟩

/-- C3 (amended): under the publish-state-determined search root, a file
named exactly the base name — whatever its permission bits — is chmodded to
0755, which grants owner, group and other execute permission, and the root
token joined with the base name is returned; otherwise a file named base
name + ".dll" yields the root token joined with that name and no chmod;
otherwise the empty string is returned with no error. -/
theorem publishedStartCommand_cases (fs : Project.FS) (pub : Bool)
    (hpub : Project.IsPublished fs = .ok pub) (pp : String) :
    ((fs.files (BP.joinList [Project.publishedPathOf fs pub, pp])).isSome = true →
      Project.publishedStartCommand fs pp =
        .ok (BP.joinList [Project.runtimePathOf fs pub, pp],
             [(BP.joinList [Project.publishedPathOf fs pub, pp], 0o755)]) ∧
      (0o755 : Nat) &&& 0o111 = 0o111)
  ∧ (fs.files (BP.joinList [Project.publishedPathOf fs pub, pp]) = none →
      (fs.files (BP.joinList [Project.publishedPathOf fs pub, pp ++ ".dll"])).isSome = true →
      Project.publishedStartCommand fs pp =
        .ok (BP.joinList [Project.runtimePathOf fs pub, pp] ++ ".dll", []))
  ∧ (fs.files (BP.joinList [Project.publishedPathOf fs pub, pp]) = none →
      fs.files (BP.joinList [Project.publishedPathOf fs pub, pp ++ ".dll"]) = none →
      Project.publishedStartCommand fs pp = .ok ("", [])) := by
  refine ⟨?_, ?_, ?_⟩
  · intro h
    exact ⟨by simp [Project.publishedStartCommand, hpub, h], by decide⟩
  · intro h1 h2
    simp [Project.publishedStartCommand, hpub, h1, h2]
  · intro h1 h2
    simp [Project.publishedStartCommand, hpub, h1, h2]

/-- Counterexample for C3 as stated: "fred" exists without any execute
permission, "fred.dll" exists, yet the code takes the first branch (bare
existence, chmod 0755) and returns the path to "fred", not the claimed
".dll" result. -/
theorem publishedStartCommand_exec_perm_counterexample :
    Project.specExecutableAt fsC3 "/b/fred" = false
  ∧ (fsC3.files "/b/fred.dll").isSome = true
  ∧ Project.publishedStartCommand fsC3 "fred" = .ok ("${HOME}/fred", [("/b/fred", 0o755)])
  ∧ ((.ok ("${HOME}/fred", [("/b/fred", 0o755)]) :
        Except BP.GoError (String × List (String × Nat))) ≠
      .ok ("${HOME}/fred.dll", [])) :=
  ⟨rfl, rfl, rfl, by decide⟩

/-- Witness for the amended C3 at concrete inputs: the existing "fred" is
returned home-relative with the 0755 chmod recorded, and a missing base
name with no .dll yields the empty string. -/
theorem publishedStartCommand_cases_witness :
    Project.publishedStartCommand fsC3 "fred" = .ok ("${HOME}/fred", [("/b/fred", 0o755)])
  ∧ Project.publishedStartCommand fsC3 "nothere" = .ok ("", []) :=
  ⟨((publishedStartCommand_cases fsC3 true rfl "fred").1 (by rfl)).1,
   (publishedStartCommand_cases fsC3 true rfl "nothere").2.2 rfl rfl⟩

/-- C6: every path `ProjFilePaths` returns ends in one of the three
recognized project extensions and never contains the reserved excluded
directory segment: the walk's exact, case-sensitive "/.cloudfoundry/"
substring check (an interior-segment match) rules it out as an inner
segment and prunes such subtrees early, and the extension filter rules it
out as the final segment. -/
theorem projFilePaths_excludes_cloudfoundry (fs : Project.FS) (p : String)
    (hp : p ∈ Project.ProjFilePaths fs) :
    BP.isProjSuffix p = true
  ∧ BP.strContains p "/.cloudfoundry/" = false
  ∧ BP.strEnds p "/.cloudfoundry" = false := by
  have hmain : BP.isProjSuffix p = true ∧ BP.strContains p "/.cloudfoundry/" = false := by
    rw [Project.ProjFilePaths] at hp
    cases hroot : BP.strContains fs.buildDir "/.cloudfoundry/" with
    | true => rw [if_pos hroot] at hp; simp at hp
    | false =>
      rw [if_neg (by simp [hroot])] at hp
      rcases List.mem_append.mp hp with h1 | h2
      · by_cases hb : BP.isProjSuffix fs.buildDir = true
        · rw [if_pos hb] at h1
          rcases List.mem_singleton.mp h1 with rfl
          exact ⟨hb, hroot⟩
        · rw [if_neg hb] at h1
          simp at h1
      · exact Project.collectProjWalk_mem fs.buildDir fs.tree p h2
  exact ⟨hmain.1, hmain.2, BP.isProj_not_ends_cloudfoundry p hmain.1⟩

/-- Witness for C6: the surviving path of the walk over a tree with a
.cloudfoundry subtree satisfies all three exclusion properties. -/
theorem projFilePaths_excludes_cloudfoundry_witness :
    BP.isProjSuffix "/b/first.csproj" = true
  ∧ BP.strContains "/b/first.csproj" "/.cloudfoundry/" = false
  ∧ BP.strEnds "/b/first.csproj" "/.cloudfoundry" = false :=
  projFilePaths_excludes_cloudfoundry fsW6 "/b/first.csproj" (by decide)

/-- C9: when the main path is a build descriptor and its metadata does not
parse as XML, `StartCommand` fails with that parse error rather than
silently falling back to the file-name heuristic. -/
theorem startCommand_malformed_descriptor (fs : Project.FS) (p msg : String)
    (hmain : Project.MainPath fs = .ok p)
    (hdesc : BP.isProjSuffix p = true)
    (hxml : fs.xmlParse p = some (.error msg)) :
    Project.StartCommand fs = .error (.xmlUnmarshalFailed msg) := by
  have hne := BP.isProj_ne_empty p hdesc
  have hrc := BP.isProj_not_runtimeConfig p hdesc
  have hpm := BP.isProj_projReMatch p hdesc
  simp [Project.StartCommand, hmain, hne, hrc, hpm, Project.getAssemblyName, hxml]

/-- Witness for C9 at a concrete input. -/
theorem startCommand_malformed_descriptor_witness :
    Project.StartCommand fsW9 = .error (.xmlUnmarshalFailed "XML syntax error") :=
  startCommand_malformed_descriptor fsW9 "/b/fred.csproj" "XML syntax error" rfl (by decide) rfl
